import Mathlib

/-
Verification of the Rusted Moss world module (worlds/rusted_moss/__init__.py):
the rule-string compiler `convert_to_rule`, the two-phase region-graph builder
(`stage_generate_early`, `get_parent`, `create_regions`) and the goal wiring
(`set_rules`).  Machine state is embedded shallowly: the simulated inventory is
a count function, a compiled predicate is a Boolean function of it, and the
Python lambda-string construction is modelled as a fragment list evaluated by a
parser with Python's `and`/`or` grammar (a failed parse models the SyntaxError
that `eval` raises on a malformed lambda string).
-/

namespace RustedMoss

/-- Simulated inventory for one player: item/event name to collected count.
`state.has(name, player)` is `1 ≤ s name`; `state.has(name, player, c)` is `c ≤ s name`. -/
abbrev InvState := String → Nat

/-- A compiled access predicate, as handed to edges and locations. -/
abbrev Pred := InvState → Bool

/-- The external catalogs `convert_to_rule` consults: `item_dict.keys()`,
`self.events`, and `asdict(self.options)` with each value already passed
through Python's `bool(...)` (the code substitutes `str(bool(value))`). -/
structure CompileEnv where
  items : List String
  events : List String
  options : List (String × Bool)
deriving Repr

/-- One fragment appended to the Python `lambda_string`:
`"("`, `")"`, `" and "`, `" or "`, a `state.has("item", player[, count])` call,
or a baked option constant `"True"`/`"False"`. -/
inductive Tok where
  | lparen : Tok
  | rparen : Tok
  | andT : Tok
  | orT : Tok
  | hasTok : String → Nat → Tok
  | litTok : Bool → Tok
deriving DecidableEq, Repr

/-- Lookup of a whole token in `part_lookup` (lines 139-148).  The Python dict
is built with later entries overriding earlier ones, so the precedence is:
events, then option flags, then the two reserved aliases, then catalog items,
then the operator and parenthesis literals. -/
def partLookup (env : CompileEnv) (part : String) : Option Tok :=
  if part ∈ env.events then some (Tok.hasTok part 1)
  else
    match List.lookup part env.options with
    | some b => some (Tok.litTok b)
    | none =>
      if part = "Infinite_Grapple" then some (Tok.hasTok "Grappling_Hook" 3)
      else if part = "Grappling_Hook_Upgrade" then some (Tok.hasTok "Grappling_Hook" 2)
      else if part ∈ env.items then some (Tok.hasTok part 1)
      else if part = "+" then some Tok.andT
      else if part = "|" then some Tok.orT
      else if part = "(" then some Tok.lparen
      else if part = ")" then some Tok.rparen
      else none

/-- The character `{` (written numerically so no brace appears in the text). -/
def lbraceChar : Char := Char.ofNat 123

/-- The character `}`. -/
def rbraceChar : Char := Char.ofNat 125

/-- Model of `rule.replace("(", "( ").replace(")", " )")` (line 151): pad every
parenthesis with a space on its inner side.  The first replacement introduces
no `)` so the two replacements do not interfere. -/
def padParens : List Char → List Char
  | [] => []
  | c :: cs =>
    if c = '(' then '(' :: ' ' :: padParens cs
    else if c = ')' then ' ' :: ')' :: padParens cs
    else c :: padParens cs

/-- Model of Python `str.split()` (no argument): split on runs of whitespace,
dropping empty pieces.  The accumulator holds the current word reversed. -/
def wordsAux : List Char → List Char → List String
  | [], cur => if cur.isEmpty then [] else [String.mk cur.reverse]
  | c :: cs, cur =>
    if c.isWhitespace then
      if cur.isEmpty then wordsAux cs [] else String.mk cur.reverse :: wordsAux cs []
    else wordsAux cs (c :: cur)

/-- Tokenization `parts = rule.replace("(", "( ").replace(")", " )").split()` (line 151). -/
def ruleParts (rule : String) : List String :=
  wordsAux (padParens rule.data) []

/-- Model of Python `str.split(sep)` for a one-character separator: keeps empty
pieces, and always returns at least one piece. -/
def splitOnChar (sep : Char) : List Char → List (List Char)
  | [] => [[]]
  | c :: cs =>
    if c = sep then [] :: splitOnChar sep cs
    else
      match splitOnChar sep cs with
      | [] => [[c]]
      | w :: ws => (c :: w) :: ws

/-- Digit-string value, folding left as Python `int` does on a digit run. -/
def digitsValGo : List Char → Nat → Option Nat
  | [], acc => some acc
  | c :: cs, acc =>
    if c.isDigit then digitsValGo cs (acc * 10 + (c.toNat - 48)) else none

/-- Value of a nonempty digit string; `none` models `int` raising ValueError. -/
def digitsVal : List Char → Option Nat
  | [] => none
  | cs => digitsValGo cs 0

/-- Model of Python `int(text)` on the count slice of a `name{count}` token:
an optional leading minus sign followed by digits; `none` models ValueError. -/
def parseIntChars : List Char → Option Int
  | '-' :: cs => Option.map (fun n => -(n : Int)) (digitsVal cs)
  | cs => Option.map (fun n => (n : Int)) (digitsVal cs)

/-- Outcome of handling one token of the rule string (lines 152-161):
a fragment is appended, or the token is printed and skipped, or the iteration
raises (ValueError from `int`, modelled as `err`). -/
inductive FragRes where
  | tok : Tok → FragRes
  | skip : FragRes
  | err : FragRes
deriving DecidableEq, Repr

/-- One iteration of the token loop (lines 152-161).  `part in part_lookup`
first; otherwise `splitPart = part.split("{")` and, when `splitPart[0]` is a
catalog item, `make_has(splitPart[0], int(splitPart[1].split("}")[0]))` —
`make_has` emits a count only when it exceeds 1 (lines 133-137); otherwise the
token is reported and skipped. -/
def tokenToFrag (env : CompileEnv) (part : String) : FragRes :=
  match partLookup env part with
  | some t => FragRes.tok t
  | none =>
    match splitOnChar lbraceChar part.data with
    | [] => FragRes.skip
    | head :: rest =>
      if String.mk head ∈ env.items then
        match rest with
        | [] => FragRes.err
        | sub :: _ =>
          match parseIntChars ((splitOnChar rbraceChar sub).headD []) with
          | some i => FragRes.tok (Tok.hasTok (String.mk head) (if 1 < i then i.toNat else 1))
          | none => FragRes.err
      else FragRes.skip

/-- Fold of the token loop: collects the appended fragments in order, skipping
reported tokens; `none` when the loop raises. -/
def ruleFragsGo (env : CompileEnv) : List String → Option (List Tok)
  | [] => some []
  | p :: ps =>
    match tokenToFrag env p with
    | FragRes.err => none
    | FragRes.skip => ruleFragsGo env ps
    | FragRes.tok t => Option.map (fun l => t :: l) (ruleFragsGo env ps)

/-- The fragment sequence of `lambda_string` after the loop of lines 150-161. -/
def ruleFrags (env : CompileEnv) (rule : String) : Option (List Tok) :=
  ruleFragsGo env (ruleParts rule)

/-- The Python boolean expression denoted by an evaluated lambda string. -/
inductive PyExpr where
  | hasItem : String → Nat → PyExpr
  | boolLit : Bool → PyExpr
  | andE : PyExpr → PyExpr → PyExpr
  | orE : PyExpr → PyExpr → PyExpr
deriving DecidableEq, Repr

/-- Parser mode: `expr p` parses an expression at precedence level `p`
(0 = `or` level, 1 = `and` level, 2 = atom), `rest p acc` is the left-to-right
operator loop at level `p` with the expression parsed so far. -/
inductive PMode where
  | expr : Nat → PMode
  | rest : Nat → PyExpr → PMode

/-- Recursive-descent parser for the fragment sequence, with Python's grammar
for `or`/`and` (`or_test := and_test ("or" and_test)*`, left-associative,
`and` binding tighter than `or`, parentheses for grouping).  Fuel guarantees
structural recursion; every concrete parse below gets ample fuel. -/
def parseStep : Nat → PMode → List Tok → Option (PyExpr × List Tok)
  | 0, _, _ => none
  | fuel + 1, PMode.expr 2, ts =>
    match ts with
    | Tok.lparen :: ts1 =>
      match parseStep fuel (PMode.expr 0) ts1 with
      | some (e, Tok.rparen :: ts2) => some (e, ts2)
      | _ => none
    | Tok.hasTok n c :: ts1 => some (PyExpr.hasItem n c, ts1)
    | Tok.litTok b :: ts1 => some (PyExpr.boolLit b, ts1)
    | _ => none
  | fuel + 1, PMode.expr p, ts =>
    match parseStep fuel (PMode.expr (p + 1)) ts with
    | some (e, ts1) => parseStep fuel (PMode.rest p e) ts1
    | none => none
  | fuel + 1, PMode.rest 0 acc, Tok.orT :: ts =>
    match parseStep fuel (PMode.expr 1) ts with
    | some (e, ts1) => parseStep fuel (PMode.rest 0 (PyExpr.orE acc e)) ts1
    | none => none
  | fuel + 1, PMode.rest 1 acc, Tok.andT :: ts =>
    match parseStep fuel (PMode.expr 2) ts with
    | some (e, ts1) => parseStep fuel (PMode.rest 1 (PyExpr.andE acc e)) ts1
    | none => none
  | _ + 1, PMode.rest _ acc, ts => some (acc, ts)

/-- Model of `eval(lambda_string)` (line 164): the fragment sequence must parse
as one complete Python boolean expression; otherwise `eval` raises SyntaxError
(modelled as `none`).  Adjacent atoms with no operator between them are modelled
as failures, matching the SyntaxError Python raises for adjacent calls. -/
def pyParse (ts : List Tok) : Option PyExpr :=
  match parseStep (4 * ts.length + 8) (PMode.expr 0) ts with
  | some (e, []) => some e
  | _ => none

/-- Model of `convert_to_rule` (lines 132-164): tokenize, build the lambda string, and
evaluate it.  `none` models the run aborting with an exception. -/
def convert_to_rule (env : CompileEnv) (rule : String) : Option PyExpr :=
  match ruleFrags env rule with
  | none => none
  | some ts => pyParse ts

/-- Evaluation of a compiled predicate against an inventory state.
`state.has(n, player, c)` holds when the state owns at least `c` of `n`. -/
def pyEval : PyExpr → InvState → Bool
  | PyExpr.hasItem n c, s => decide (c ≤ s n)
  | PyExpr.boolLit b, _ => b
  | PyExpr.andE l r, s => pyEval l s && pyEval r s
  | PyExpr.orE l r, s => pyEval l s || pyEval r s

/-- State of Phase 1 (`stage_generate_early`, lines 55-68): the
`location_connections` counter (a `Counter`, so absent keys read 0) and the
tentative elision table `location_to_region` (a dict, absent keys read none). -/
structure Phase1State where
  counts : String → Nat
  location_to_region : String → Option String

/-- Empty counter and empty elision table (lines 58-59). -/
def phase1Start : Phase1State :=
  { counts := fun _ => 0, location_to_region := fun _ => none }

/-- One iteration of the classification loop (lines 60-68): keys whose target
is neither a known location nor a known event are skipped; otherwise the
counter is bumped, a first occurrence records `target -> parent`, a second
occurrence deletes the record, and later occurrences leave the table alone. -/
def phase1Step (locs events : List String) (st : Phase1State) (key : String × String) :
    Phase1State :=
  if key.2 ∈ locs ∨ key.2 ∈ events then
    let c := st.counts key.2 + 1
    { counts := fun n => if n = key.2 then c else st.counts n,
      location_to_region := fun n =>
        if n = key.2 then
          if c = 1 then some key.1
          else if c = 2 then none
          else st.location_to_region n
        else st.location_to_region n }
  else st

/-- Model of `stage_generate_early` (lines 55-68), run over the extracted rule table.
`locs` stands for `cls.location_name_to_id` keys and `events` for `cls.events`;
the fold visits `cls.rules.keys()` in table order. -/
def stage_generate_early (locs events : List String)
    (rules : List ((String × String) × String)) : Phase1State :=
  rules.foldl (fun st e => phase1Step locs events st e.1) phase1Start

/-- Model of `get_parent` (lines 74-84).  A region object is identified by its name and
the registry `regions` by the list of names created so far, in creation order.
The fuel bounds the recursion through `location_to_region`; `none` models the
RecursionError a cyclic elision table would raise. -/
def get_parent (ltr : String → Option String) :
    Nat → List String → String → Option (String × List String)
  | 0, _, _ => none
  | fuel + 1, regions, name =>
    if name ∈ regions then some (name, regions)
    else
      match ltr name with
      | some parent => get_parent ltr fuel regions parent
      | none => some (name, regions ++ [name])

/-- State built by `create_regions` (lines 70-111): the region registry, the
entrances created by `connect` as (source region, destination region, optional
predicate), and the `location_rules` dict (modelled as an association list
where the most recent write is first). -/
structure BuildState where
  regions : List String
  edges : List (String × String × Option Pred)
  location_rules : List (String × Option Pred)

/-- Line 89, `logic = None if rule == "" else self.convert_to_rule(rule)`,
with the compiler abstracted as a total function — the claims below about this
phase hold for every compiler, which also captures that the compiler is never
consulted for an empty rule text. -/
def rule_logic (compile : String → Pred) (rule : String) : Option Pred :=
  if rule = "" then none else some (compile rule)

/-- One iteration of the materialization loop (lines 87-94): an elided target
stashes its logic in `location_rules` and creates nothing; otherwise
`get_parent(parent).connect(get_parent(target), rule=logic)` resolves the
parent first, then the target, and appends the entrance. -/
def create_step (compile : String → Pred) (ltr : String → Option String) (fuel : Nat)
    (st : BuildState) (entry : (String × String) × String) : Option BuildState :=
  let logic := rule_logic compile entry.2
  match ltr entry.1.2 with
  | some _ =>
    some { st with location_rules := (entry.1.2, logic) :: st.location_rules }
  | none =>
    match get_parent ltr fuel st.regions entry.1.1 with
    | none => none
    | some (pr, rs1) =>
      match get_parent ltr fuel rs1 entry.1.2 with
      | none => none
      | some (tr, rs2) =>
        some { st with regions := rs2, edges := st.edges ++ [(pr, tr, logic)] }

/-- The loop of lines 87-94 over the whole rule table. -/
def run_rules (compile : String → Pred) (ltr : String → Option String) (fuel : Nat)
    (st : BuildState) (rules : List ((String × String) × String)) : Option BuildState :=
  rules.foldl (fun acc e => Option.bind acc (fun s => create_step compile ltr fuel s e)) (some st)

/-- Model of `create_regions` up to the rule loop (lines 70-94): starting from an empty
registry, the root edge `get_parent("Menu").connect(get_parent("rm_start_0[100390]"))`
is created with no rule, then every table entry is processed. -/
def create_regions (compile : String → Pred) (ltr : String → Option String) (fuel : Nat)
    (rules : List ((String × String) × String)) : Option BuildState :=
  match get_parent ltr fuel [] "Menu" with
  | none => none
  | some (m, rs1) =>
    match get_parent ltr fuel rs1 "rm_start_0[100390]" with
    | none => none
    | some (s0, rs2) =>
      run_rules compile ltr fuel { regions := rs2, edges := [(m, s0, none)], location_rules := [] } rules

/-- A materialized location or event object: its name, the region it was
appended into, and its access rule (`lambda state: True` by default,
overwritten by `set_rule` only when the stashed value is truthy). -/
structure LocObj where
  name : String
  region : String
  access : Pred

/-- Shared shape of the two materialization loops (lines 96-109): resolve the
owning region through `get_parent`, read the stashed rule, and attach it only
when `if rule:` finds it truthy — a stashed `None` (and an absent key alike)
leaves the default always-true access rule. -/
def materialize_spot (ltr : String → Option String) (fuel : Nat)
    (locRules : List (String × Option Pred)) (rs : List String) (name : String) :
    Option (LocObj × List String) :=
  match get_parent ltr fuel rs name with
  | none => none
  | some (r, rs1) =>
    let access : Pred :=
      match List.lookup name locRules with
      | some (some p) => p
      | _ => fun _ => true
    some ({ name := name, region := r, access := access }, rs1)

/-- An event location (lines 50-53): its locked progression marker item bears
the event's own name. -/
structure EventLoc where
  name : String
  lockedItem : String

/-- Call `create_event(event, event, region)` as made on line 97. -/
def create_event (n : String) : EventLoc :=
  { name := n, lockedItem := n }

/-- Modelled from the spec: the five values of the `Ending` choice option from
the missing Options.py, five distinct numeric values in declaration order. -/
def option_ending_a : Nat := 0

/-- Modelled from the spec: second `Ending` value. -/
def option_ending_b : Nat := 1

/-- Modelled from the spec: third `Ending` value. -/
def option_ending_c : Nat := 2

/-- Modelled from the spec: fourth `Ending` value. -/
def option_ending_d : Nat := 3

/-- Modelled from the spec: fifth `Ending` value. -/
def option_ending_e : Nat := 4

/-- Goal-event selection in `set_rules` (lines 118-129): `goal_event` starts at
`"e_goal_e"` and an if/elif chain overwrites it for each recognized ending. -/
def set_rules_goal (endingValue : Nat) : String :=
  if endingValue = option_ending_a then "e_goal_a"
  else if endingValue = option_ending_b then "e_goal_b"
  else if endingValue = option_ending_c then "e_goal_c"
  else if endingValue = option_ending_d then "e_goal_d"
  else if endingValue = option_ending_e then "e_goal_e"
  else "e_goal_e"

/-- The completion predicate installed on line 130:
`lambda state: state.has(goal_event, self.player)`. -/
def completion_condition (endingValue : Nat) : Pred :=
  fun s => decide (1 ≤ s (set_rules_goal endingValue))

/-- Concrete catalog used by witnesses and counterexamples. -/
def env0 : CompileEnv :=
  { items := ["A", "B", "C", "Key", "Grappling_Hook"], events := [], options := [] }

/-- Concrete elision table used by witnesses: the chain c -> b -> a. -/
def ltr0 : String → Option String :=
  fun n => if n = "c" then some "b" else if n = "b" then some "a" else none

/-- Concrete compiler stub used by witnesses of compiler-independent claims. -/
def cmp0 : String → Pred := fun _ _ => true

/-- A second, different compiler stub, for compiler-independence witnesses. -/
def cmp1 : String → Pred := fun _ _ => false

/-- Empty build state used by witnesses. -/
def st0 : BuildState := { regions := [], edges := [], location_rules := [] }

/-- Concrete inventory owning one A and one B. -/
def invAB : InvState := fun n => if n = "A" then 1 else if n = "B" then 1 else 0

/-- Concrete inventory owning only one A. -/
def invA : InvState := fun n => if n = "A" then 1 else 0

/-- Concrete inventory owning three Keys. -/
def invKey3 : InvState := fun n => if n = "Key" then 3 else 0

/-- Concrete inventory owning only two Keys. -/
def invKey2 : InvState := fun n => if n = "Key" then 2 else 0

/-- Concrete inventory owning the default goal event's marker item. -/
def invGoal : InvState := fun n => if n = "e_goal_e" then 1 else 0

/-- Hypotheses under which a name resolves as a plain catalog item in
`part_lookup`: it is in the catalog and not shadowed by an option flag or one
of the two reserved aliases (a homonymous event would resolve identically). -/
abbrev item_token (env : CompileEnv) (n : String) : Prop :=
  n ∈ env.items ∧ List.lookup n env.options = none ∧
  n ≠ "Infinite_Grapple" ∧ n ≠ "Grappling_Hook_Upgrade"

/-- Hypotheses under which the four operator/parenthesis tokens keep their
operator meaning: no catalog item, event or option flag shadows them. -/
abbrev ops_free (env : CompileEnv) : Prop :=
  ∀ c ∈ (["+", "|", "(", ")"] : List String),
    c ∉ env.items ∧ c ∉ env.events ∧ List.lookup c env.options = none

/-- Hypotheses under which a token misses every `part_lookup` key except
possibly the alias and operator literals. -/
abbrev plain_unknown (env : CompileEnv) (n : String) : Prop :=
  n ∉ env.items ∧ n ∉ env.events ∧ List.lookup n env.options = none

/-- Full characterization of Phase 1: after the classification fold, the
counter of a target equals the number of rule keys aimed at it (when it is a
known location or event, 0 otherwise), and the elision table maps it exactly
when it is known and hit by exactly one key, to that key's parent. -/
theorem phase1_char (locs events : List String) (rules : List ((String × String) × String))
    (t : String) :
    (stage_generate_early locs events rules).counts t =
      (if t ∈ locs ∨ t ∈ events then (rules.filter fun e => e.1.2 == t).length else 0) ∧
    (stage_generate_early locs events rules).location_to_region t =
      (if (t ∈ locs ∨ t ∈ events) ∧ (rules.filter fun e => e.1.2 == t).length = 1
       then Option.map (fun e => e.1.1) (rules.filter fun e => e.1.2 == t).head?
       else none) := by
  induction rules using List.reverseRecOn with
  | nil => simp [stage_generate_early, phase1Start]
  | append_singleton l e ih =>
    obtain ⟨ihc, ihm⟩ := ih
    have hfold : stage_generate_early locs events (l ++ [e]) =
        phase1Step locs events (stage_generate_early locs events l) e.1 := by
      simp [stage_generate_early, List.foldl_append]
    rw [hfold]
    by_cases hkt : e.1.2 = t
    · subst hkt
      have hbt : (e.1.2 == e.1.2) = true := beq_iff_eq.mpr rfl
      have hfe : ((l ++ [e]).filter fun x => x.1.2 == e.1.2) =
          (l.filter fun x => x.1.2 == e.1.2) ++ [e] := by
        simp [List.filter_append, List.filter, hbt]
      rw [hfe]
      by_cases hk : e.1.2 ∈ locs ∨ e.1.2 ∈ events
      · rw [if_pos hk] at ihc
        have hstepc : (phase1Step locs events (stage_generate_early locs events l) e.1).counts e.1.2 =
            (stage_generate_early locs events l).counts e.1.2 + 1 := by
          simp [phase1Step, hk]
        have hstepm :
            (phase1Step locs events (stage_generate_early locs events l) e.1).location_to_region e.1.2 =
              (if (stage_generate_early locs events l).counts e.1.2 + 1 = 1 then some e.1.1
               else if (stage_generate_early locs events l).counts e.1.2 + 1 = 2 then none
               else (stage_generate_early locs events l).location_to_region e.1.2) := by
          simp [phase1Step, hk]
        constructor
        · rw [hstepc, ihc, if_pos hk]
          simp
        · rw [hstepm, ihc]
          rcases hL : (l.filter fun x => x.1.2 == e.1.2).length with _ | _ | L2
          · have hnil : (l.filter fun x => x.1.2 == e.1.2) = [] := List.length_eq_zero.mp hL
            simp [hnil, hk]
          · have hlen : ((l.filter fun x => x.1.2 == e.1.2) ++ [e]).length = 2 := by
              simp [hL]
            rw [hlen]
            simp only [hk, true_and]
            rw [hL]
            simp
          · rw [ihm]
            have hlen : ((l.filter fun x => x.1.2 == e.1.2) ++ [e]).length = L2 + 3 := by
              simp [hL]
            rw [hlen, hL]
            have h1 : ¬(L2 + 1 + 1 + 1 = 1) := by omega
            have h2 : ¬(L2 + 1 + 1 + 1 = 2) := by omega
            have h3 : ¬((e.1.2 ∈ locs ∨ e.1.2 ∈ events) ∧ L2 + 3 = 1) := by
              rintro ⟨-, h⟩; omega
            have h4 : ¬((e.1.2 ∈ locs ∨ e.1.2 ∈ events) ∧ L2 + 1 + 1 = 1) := by
              rintro ⟨-, h⟩; omega
            rw [if_neg h1, if_neg h2, if_neg h4, if_neg h3]
      · have hstep : phase1Step locs events (stage_generate_early locs events l) e.1 =
            stage_generate_early locs events l := by
          simp [phase1Step, hk]
        rw [hstep, if_neg hk] at *
        refine ⟨ihc, ?_⟩
        rw [ihm]
        have hc2 : ¬((e.1.2 ∈ locs ∨ e.1.2 ∈ events) ∧
            ((l.filter fun x => x.1.2 == e.1.2) ++ [e]).length = 1) := fun h => hk h.1
        have hc1 : ¬((e.1.2 ∈ locs ∨ e.1.2 ∈ events) ∧
            (l.filter fun x => x.1.2 == e.1.2).length = 1) := fun h => hk h.1
        rw [if_neg hc1, if_neg hc2]
    · have hbf : (e.1.2 == t) = false := beq_eq_false_iff_ne.mpr hkt
      have hfe : ((l ++ [e]).filter fun x => x.1.2 == t) = l.filter fun x => x.1.2 == t := by
        simp [List.filter_append, List.filter, hbf]
      rw [hfe]
      by_cases hcond : e.1.2 ∈ locs ∨ e.1.2 ∈ events
      · have hstepc : (phase1Step locs events (stage_generate_early locs events l) e.1).counts t =
            (stage_generate_early locs events l).counts t := by
          simp [phase1Step, hcond, Ne.symm hkt]
        have hstepm :
            (phase1Step locs events (stage_generate_early locs events l) e.1).location_to_region t =
              (stage_generate_early locs events l).location_to_region t := by
          simp [phase1Step, hcond, Ne.symm hkt]
        rw [hstepc, hstepm]
        exact ⟨ihc, ihm⟩
      · have hstep : phase1Step locs events (stage_generate_early locs events l) e.1 =
            stage_generate_early locs events l := by
          simp [phase1Step, hcond]
        rw [hstep]
        exact ⟨ihc, ihm⟩

/-- C1: after Phase 1 classification (`stage_generate_early`) runs over the
rule table, a target name has an elision mapping if and only if it is a known
location or event name and exactly one rule key in the table targets it, and
the mapping then points at the parent of that (first-observed) rule key; a
second observation deletes the mapping and every later observation leaves the
(absent) entry untouched, and unknown targets are never mapped. -/
theorem claim_C1 (locs events : List String) (rules : List ((String × String) × String))
    (t : String) :
    (stage_generate_early locs events rules).location_to_region t =
      (if (t ∈ locs ∨ t ∈ events) ∧ (rules.filter fun e => e.1.2 == t).length = 1
       then Option.map (fun e => e.1.1) (rules.filter fun e => e.1.2 == t).head?
       else none) :=
  (phase1_char locs events rules t).2

/-- Running `get_parent` on a name with no elision mapping returns a region of that
exact name, creating it only when absent from the registry. -/
theorem get_parent_unmapped (ltr : String → Option String) (fuel : Nat) (rs : List String)
    (n : String) (h : ltr n = none) :
    get_parent ltr (fuel + 1) rs n = some (n, if n ∈ rs then rs else rs ++ [n]) := by
  by_cases hn : n ∈ rs <;> simp [get_parent, hn, h]

/-- Running `get_parent` on a mapped name not in the registry recurses to the parent. -/
theorem get_parent_mapped (ltr : String → Option String) (fuel : Nat) (rs : List String)
    (n p : String) (h : ltr n = some p) (hn : n ∉ rs) :
    get_parent ltr (fuel + 1) rs n = get_parent ltr fuel rs p := by
  simp [get_parent, hn, h]

/-- Running `get_parent` on an already-registered name returns it with no change. -/
theorem get_parent_mem (ltr : String → Option String) (fuel : Nat) (rs : List String)
    (n : String) (hn : n ∈ rs) :
    get_parent ltr (fuel + 1) rs n = some (n, rs) := by
  simp [get_parent, hn]

/-- Every name present in the registry after a `get_parent` call either was
already registered or has no elision mapping. -/
theorem get_parent_adds_unmapped (ltr : String → Option String) :
    ∀ (fuel : Nat) (rs : List String) (n r : String) (rs2 : List String),
      get_parent ltr fuel rs n = some (r, rs2) → ∀ m ∈ rs2, m ∈ rs ∨ ltr m = none := by
  intro fuel
  induction fuel with
  | zero =>
    intro rs n r rs2 h
    simp [get_parent] at h
  | succ f ih =>
    intro rs n r rs2 h m hm
    by_cases hn : n ∈ rs
    · rw [get_parent_mem ltr f rs n hn] at h
      obtain ⟨-, rfl⟩ := Prod.mk.injEq .. ▸ Option.some.inj h
      exact Or.inl hm
    · cases hl : ltr n with
      | some p =>
        rw [get_parent_mapped ltr f rs n p hl hn] at h
        exact ih rs p r rs2 h m hm
      | none =>
        rw [get_parent_unmapped ltr f rs n hl, if_neg hn] at h
        obtain ⟨-, rfl⟩ := Prod.mk.injEq .. ▸ Option.some.inj h
        rcases List.mem_append.mp hm with h1 | h1
        · exact Or.inl h1
        · rw [List.mem_singleton.mp h1]
          exact Or.inr hl

/-- C2: region resolution is transitive through elision chains — `get_parent`
on a mapped name resolves its recorded parent instead, a chain c -> b -> a of
single-parent targets resolves b and c both to a's region, a mapped name never
gets a standalone region added to the registry, and an unmapped name gets a
region of its exact name created on first request and returned unchanged on
every later request. -/
theorem claim_C2 (ltr : String → Option String) (fuel : Nat) (regions : List String) :
    (∀ name p, ltr name = some p → name ∉ regions →
      get_parent ltr (fuel + 1) regions name = get_parent ltr fuel regions p) ∧
    (∀ name r rs2, get_parent ltr fuel regions name = some (r, rs2) →
      ∀ m, ltr m ≠ none → m ∉ regions → m ∉ rs2) ∧
    (∀ a b c, ltr c = some b → ltr b = some a → ltr a = none → b ∉ regions → c ∉ regions →
      Option.map Prod.fst (get_parent ltr (fuel + 3) regions c) = some a ∧
      Option.map Prod.fst (get_parent ltr (fuel + 3) regions b) = some a ∧
      Option.map Prod.fst (get_parent ltr (fuel + 3) regions a) = some a) ∧
    (∀ name, ltr name = none →
      (name ∉ regions → get_parent ltr (fuel + 1) regions name = some (name, regions ++ [name])) ∧
      (name ∈ regions → get_parent ltr (fuel + 1) regions name = some (name, regions))) := by
  refine ⟨?_, ?_, ?_, ?_⟩
  · intro name p h hn
    exact get_parent_mapped ltr fuel regions name p h hn
  · intro name r rs2 h m hm1 hm2 hmem
    rcases get_parent_adds_unmapped ltr fuel regions name r rs2 h m hmem with h1 | h1
    · exact hm2 h1
    · exact hm1 h1
  · intro a b c hc hb ha hbn hcn
    have hstep : ∀ f : Nat, Option.map Prod.fst (get_parent ltr (f + 1) regions a) = some a := by
      intro f
      rw [get_parent_unmapped ltr f regions a ha]
      simp
    refine ⟨?_, ?_, hstep (fuel + 2)⟩
    · rw [show fuel + 3 = (fuel + 2) + 1 by omega,
        get_parent_mapped ltr (fuel + 2) regions c b hc hcn,
        get_parent_mapped ltr (fuel + 1) regions b a hb hbn]
      exact hstep fuel
    · rw [show fuel + 3 = (fuel + 2) + 1 by omega,
        get_parent_mapped ltr (fuel + 2) regions b a hb hbn]
      exact hstep (fuel + 1)
  · intro name h
    constructor
    · intro hn
      rw [get_parent_unmapped ltr fuel regions name h, if_neg hn]
    · intro hn
      rw [get_parent_unmapped ltr fuel regions name h, if_pos hn]

/-- Witness for C2 on the concrete chain `ltr0`: c -> b -> a. -/
theorem claim_C2_witness :
    get_parent ltr0 2 [] "c" = get_parent ltr0 1 [] "b" ∧
    "b" ∉ (["a"] : List String) ∧
    Option.map Prod.fst (get_parent ltr0 3 [] "c") = some "a" ∧
    get_parent ltr0 1 [] "a" = some ("a", ["a"]) ∧
    get_parent ltr0 1 ["a"] "a" = some ("a", ["a"]) :=
  ⟨(claim_C2 ltr0 1 []).1 "c" "b" (by decide) (by decide),
   (claim_C2 ltr0 3 []).2.1 "c" "a" ["a"] (by decide) "b" (by decide) (by decide),
   ((claim_C2 ltr0 0 []).2.2.1 "a" "b" "c" (by decide) (by decide) (by decide) (by decide)
     (by decide)).1,
   ((claim_C2 ltr0 0 []).2.2.2 "a" (by decide)).1 (by decide),
   ((claim_C2 ltr0 0 ["a"]).2.2.2 "a" (by decide)).2 (by decide)⟩

/-- Compiling an empty rule text yields the no-predicate marker (line 89). -/
theorem rule_logic_empty (compile : String → Pred) : rule_logic compile "" = none := rfl

/-- Rule-loop iteration on an elided target: the logic is stashed under the
target's name and no region or edge is touched. -/
theorem create_step_stash (compile : String → Pred) (ltr : String → Option String)
    (fuel : Nat) (st : BuildState) (p t r q : String) (ht : ltr t = some q) :
    create_step compile ltr fuel st ((p, t), r) =
      some { st with location_rules := (t, rule_logic compile r) :: st.location_rules } := by
  simp [create_step, ht]

/-- Rule-loop iteration on a non-elided target: the parent is resolved first,
then the target resolves to a region of its own name (created if absent), and
the entrance carrying the logic is appended. -/
theorem create_step_edge (compile : String → Pred) (ltr : String → Option String)
    (fuel : Nat) (st : BuildState) (p t r pr : String) (rs1 : List String)
    (ht : ltr t = none) (hp : get_parent ltr (fuel + 1) st.regions p = some (pr, rs1)) :
    create_step compile ltr (fuel + 1) st ((p, t), r) =
      some { st with
             regions := (if t ∈ rs1 then rs1 else rs1 ++ [t]),
             edges := st.edges ++ [(pr, t, rule_logic compile r)] } := by
  simp [create_step, ht, hp, get_parent_unmapped ltr fuel rs1 t ht]

/-- C3: during Phase 2 materialization, a rule key with an elided target
stashes its compiled logic for the later location/event attachment and creates
no edge; a rule key with a non-elided target creates a directed edge from the
parent's resolved region into the target's own region carrying the logic; and
a target hit by two rule keys ends with a dedicated region receiving one edge
from each parent. -/
theorem claim_C3 (compile : String → Pred) (ltr : String → Option String) (fuel : Nat)
    (st : BuildState) :
    (∀ p t r q, ltr t = some q →
      create_step compile ltr fuel st ((p, t), r) =
        some { st with location_rules := (t, rule_logic compile r) :: st.location_rules }) ∧
    (∀ p t r pr rs1, ltr t = none →
      get_parent ltr (fuel + 1) st.regions p = some (pr, rs1) →
      create_step compile ltr (fuel + 1) st ((p, t), r) =
        some { st with
               regions := (if t ∈ rs1 then rs1 else rs1 ++ [t]),
               edges := st.edges ++ [(pr, t, rule_logic compile r)] }) ∧
    (∀ p1 p2 t r1 r2, ltr t = none → ltr p1 = none → ltr p2 = none →
      ∃ st2, run_rules compile ltr (fuel + 1) st [((p1, t), r1), ((p2, t), r2)] = some st2 ∧
        t ∈ st2.regions ∧
        st2.edges = st.edges ++ [(p1, t, rule_logic compile r1), (p2, t, rule_logic compile r2)]) := by
  refine ⟨fun p t r q ht => create_step_stash compile ltr fuel st p t r q ht,
    fun p t r pr rs1 ht hp => create_step_edge compile ltr fuel st p t r pr rs1 ht hp, ?_⟩
  intro p1 p2 t r1 r2 ht hp1 hp2
  have h1 : get_parent ltr (fuel + 1) st.regions p1 =
      some (p1, if p1 ∈ st.regions then st.regions else st.regions ++ [p1]) :=
    get_parent_unmapped ltr fuel st.regions p1 hp1
  set rs1 := if p1 ∈ st.regions then st.regions else st.regions ++ [p1] with hrs1
  set rs2 := if t ∈ rs1 then rs1 else rs1 ++ [t] with hrs2
  have hstep1 : create_step compile ltr (fuel + 1) st ((p1, t), r1) =
      some { st with regions := rs2, edges := st.edges ++ [(p1, t, rule_logic compile r1)] } :=
    create_step_edge compile ltr fuel st p1 t r1 p1 rs1 ht h1
  have htm2 : t ∈ rs2 := by
    rw [hrs2]
    by_cases h : t ∈ rs1 <;> simp [h]
  set rs3 := if p2 ∈ rs2 then rs2 else rs2 ++ [p2] with hrs3
  have htm3 : t ∈ rs3 := by
    rw [hrs3]
    by_cases h : p2 ∈ rs2 <;> simp [h, htm2]
  have hstep2 : create_step compile ltr (fuel + 1)
      { st with regions := rs2, edges := st.edges ++ [(p1, t, rule_logic compile r1)] }
      ((p2, t), r2) =
      some ⟨rs3,
        st.edges ++ [(p1, t, rule_logic compile r1), (p2, t, rule_logic compile r2)],
        st.location_rules⟩ := by
    have h2 : get_parent ltr (fuel + 1) rs2 p2 = some (p2, rs3) := by
      rw [hrs3]
      exact get_parent_unmapped ltr fuel rs2 p2 hp2
    have h4 : get_parent ltr (fuel + 1) rs3 t = some (t, rs3) :=
      get_parent_mem ltr fuel rs3 t htm3
    simp only [create_step, ht, h2, h4]
    simp
  refine ⟨⟨rs3,
    st.edges ++ [(p1, t, rule_logic compile r1), (p2, t, rule_logic compile r2)],
    st.location_rules⟩, ?_, htm3, rfl⟩
  have hrun : run_rules compile ltr (fuel + 1) st [((p1, t), r1), ((p2, t), r2)] =
      Option.bind (create_step compile ltr (fuel + 1) st ((p1, t), r1))
        (fun s => create_step compile ltr (fuel + 1) s ((p2, t), r2)) := rfl
  rw [hrun, hstep1]
  exact hstep2

/-- Witness for C3: an elided key ("b" has mapping in `ltr0`) only stashes; a
dedicated key creates the edge; two keys on "t" give it a region and two
incoming edges. -/
theorem claim_C3_witness :
    create_step cmp0 ltr0 1 st0 (("a", "b"), "R") =
      some { st0 with location_rules := [("b", rule_logic cmp0 "R")] } ∧
    create_step cmp0 ltr0 1 st0 (("x", "y"), "R") =
      some { st0 with regions := ["x", "y"], edges := [("x", "y", rule_logic cmp0 "R")] } ∧
    (∃ st2, run_rules cmp0 ltr0 1 st0 [(("x", "t"), ""), (("y", "t"), "")] = some st2 ∧
      "t" ∈ st2.regions ∧
      st2.edges = [("x", "t", rule_logic cmp0 ""), ("y", "t", rule_logic cmp0 "")]) := by
  refine ⟨(claim_C3 cmp0 ltr0 1 st0).1 "a" "b" "R" "a" (by decide), ?_, ?_⟩
  · have h := (claim_C3 cmp0 ltr0 0 st0).2.1 "x" "y" "R" "x" ["x"] (by decide) (by decide)
    simpa using h
  · exact (claim_C3 cmp0 ltr0 0 st0).2.2 "x" "y" "t" "" "" (by decide) (by decide) (by decide)

/-- C7: an empty rule text yields the distinguished no-predicate marker rather
than an always-true predicate, the rule-loop iteration on an empty rule text is
independent of the compiler (the compiler is never consulted), and the created
edge carries no predicate. -/
theorem claim_C7 (c1 c2 : String → Pred) (ltr : String → Option String) (fuel : Nat)
    (st : BuildState) (k : String × String) :
    rule_logic c1 "" = none ∧
    rule_logic c1 "" ≠ some (fun _ => true) ∧
    create_step c1 ltr fuel st (k, "") = create_step c2 ltr fuel st (k, "") ∧
    (∀ pr rs1, ltr k.2 = none →
      get_parent ltr (fuel + 1) st.regions k.1 = some (pr, rs1) →
      create_step c1 ltr (fuel + 1) st (k, "") =
        some { st with regions := (if k.2 ∈ rs1 then rs1 else rs1 ++ [k.2]), edges := st.edges ++ [(pr, k.2, none)] }) := by
  refine ⟨rfl, by simp [rule_logic], ?_, ?_⟩
  · simp [create_step, rule_logic]
  · intro pr rs1 ht hp
    have h := create_step_edge c1 ltr fuel st k.1 k.2 "" pr rs1 ht hp
    rwa [rule_logic_empty] at h

/-- Witness for C7 at a concrete key with two different compiler stubs. -/
theorem claim_C7_witness :
    rule_logic cmp0 "" = none ∧
    rule_logic cmp0 "" ≠ some (fun _ => true) ∧
    create_step cmp0 ltr0 1 st0 (("x", "y"), "") = create_step cmp1 ltr0 1 st0 (("x", "y"), "") ∧
    create_step cmp0 ltr0 1 st0 (("x", "y"), "") =
      some { st0 with regions := ["x", "y"], edges := [("x", "y", none)] } := by
  refine ⟨(claim_C7 cmp0 cmp1 ltr0 1 st0 ("x", "y")).1,
    (claim_C7 cmp0 cmp1 ltr0 1 st0 ("x", "y")).2.1,
    (claim_C7 cmp0 cmp1 ltr0 1 st0 ("x", "y")).2.2.1, ?_⟩
  have h := (claim_C7 cmp0 cmp1 ltr0 0 st0 ("x", "y")).2.2.2 "x" ["x"] (by decide) (by decide)
  simpa using h

/-- C10: an elided target whose rule text is empty stashes the no-predicate
marker, and its materialized location/event keeps the default always-true
access rule (the `if rule:` attachment is skipped) inside the region resolved
through its parent chain. -/
theorem claim_C10 (compile : String → Pred) (ltr : String → Option String) (fuel : Nat)
    (st : BuildState) (T P : String) (hT : ltr T = some P) :
    create_step compile ltr fuel st ((P, T), "") =
      some { st with location_rules := (T, none) :: st.location_rules } ∧
    (∀ rs r rs1, T ∉ rs → get_parent ltr fuel rs P = some (r, rs1) →
      materialize_spot ltr (fuel + 1) ((T, (none : Option Pred)) :: st.location_rules) rs T =
        some ({ name := T, region := r, access := fun _ => true }, rs1)) := by
  constructor
  · have h := create_step_stash compile ltr fuel st P T "" P hT
    rwa [rule_logic_empty] at h
  · intro rs r rs1 hTrs hgp
    have hm := get_parent_mapped ltr fuel rs T P hT hTrs
    simp [materialize_spot, hm, hgp, List.lookup]

/-- Witness for C10 on the chain `ltr0`: target "b" elided into "a". -/
theorem claim_C10_witness :
    create_step cmp0 ltr0 1 st0 (("a", "b"), "") =
      some { st0 with location_rules := [("b", none)] } ∧
    materialize_spot ltr0 2 [("b", (none : Option Pred))] [] "b" =
      some ({ name := "b", region := "a", access := fun _ => true }, ["a"]) :=
  ⟨(claim_C10 cmp0 ltr0 1 st0 "b" "a" (by decide)).1,
   (claim_C10 cmp0 ltr0 1 st0 "b" "a" (by decide)).2 [] "a" ["a"] (by decide) (by decide)⟩

/-- A token satisfying `item_token` resolves to a has-one check. -/
theorem partLookup_item_token (env : CompileEnv) (n : String) (h : item_token env n) :
    partLookup env n = some (Tok.hasTok n 1) := by
  obtain ⟨hi, ho, h1, h2⟩ := h
  by_cases he : n ∈ env.events
  · simp [partLookup, he]
  · simp [partLookup, he, ho, h1, h2, hi]

/-- A token shadowed by nothing in the catalogs resolves through the literal
alias and operator entries only. -/
theorem partLookup_unshadowed (env : CompileEnv) (n : String) (h1 : n ∉ env.items)
    (h2 : n ∉ env.events) (h3 : List.lookup n env.options = none) :
    partLookup env n =
      (if n = "Infinite_Grapple" then some (Tok.hasTok "Grappling_Hook" 3)
       else if n = "Grappling_Hook_Upgrade" then some (Tok.hasTok "Grappling_Hook" 2)
       else if n = "+" then some Tok.andT
       else if n = "|" then some Tok.orT
       else if n = "(" then some Tok.lparen
       else if n = ")" then some Tok.rparen
       else none) := by
  unfold partLookup
  rw [if_neg h2, h3]
  simp [h1]

/-- C4 counterexample: with a catalog containing A, B and C, the literal rule
texts of the claim fail to compile — the tokenizer pads only parentheses, so
`A+B` is one unrecognized token, it is skipped, and evaluating the leftover
lambda string raises SyntaxError (modelled as `none`); no predicate with the
claimed truth table exists. -/
theorem claim_C4_cex :
    convert_to_rule env0 "A+B" = none ∧
    convert_to_rule env0 "A|B" = none ∧
    convert_to_rule env0 "(A+B)|C" = none := by
  refine ⟨by decide, by decide, by decide⟩

/-- C4 (amended: operator tokens must be whitespace-separated, as the
tokenizer only pads parentheses): for catalog items A, B, C not shadowed by
option flags or aliases, `A + B` compiles to a predicate true iff the state
has at least one A and one B, `A | B` true iff it has A or B, and
`(A + B) | C` true iff (A and B) or C. -/
theorem claim_C4 (env : CompileEnv) (hops : ops_free env)
    (hA : item_token env "A") (hB : item_token env "B") (hC : item_token env "C") :
    (∃ p, convert_to_rule env "A + B" = some p ∧
      ∀ s : InvState, pyEval p s = true ↔ (1 ≤ s "A" ∧ 1 ≤ s "B")) ∧
    (∃ p, convert_to_rule env "A | B" = some p ∧
      ∀ s : InvState, pyEval p s = true ↔ (1 ≤ s "A" ∨ 1 ≤ s "B")) ∧
    (∃ p, convert_to_rule env "(A + B) | C" = some p ∧
      ∀ s : InvState, pyEval p s = true ↔ ((1 ≤ s "A" ∧ 1 ≤ s "B") ∨ 1 ≤ s "C")) := by
  obtain ⟨hq1, hq2, hq3⟩ := hops "+" (by simp)
  obtain ⟨hb1, hb2, hb3⟩ := hops "|" (by simp)
  obtain ⟨hl1, hl2, hl3⟩ := hops "(" (by simp)
  obtain ⟨hr1, hr2, hr3⟩ := hops ")" (by simp)
  have hfA : tokenToFrag env "A" = FragRes.tok (Tok.hasTok "A" 1) := by
    simp [tokenToFrag, partLookup_item_token env "A" hA]
  have hfB : tokenToFrag env "B" = FragRes.tok (Tok.hasTok "B" 1) := by
    simp [tokenToFrag, partLookup_item_token env "B" hB]
  have hfC : tokenToFrag env "C" = FragRes.tok (Tok.hasTok "C" 1) := by
    simp [tokenToFrag, partLookup_item_token env "C" hC]
  have hfPlus : tokenToFrag env "+" = FragRes.tok Tok.andT := by
    have hpl : partLookup env "+" = some Tok.andT := by
      rw [partLookup_unshadowed env "+" hq1 hq2 hq3]
      decide
    simp [tokenToFrag, hpl]
  have hfBar : tokenToFrag env "|" = FragRes.tok Tok.orT := by
    have hpl : partLookup env "|" = some Tok.orT := by
      rw [partLookup_unshadowed env "|" hb1 hb2 hb3]
      decide
    simp [tokenToFrag, hpl]
  have hfLp : tokenToFrag env "(" = FragRes.tok Tok.lparen := by
    have hpl : partLookup env "(" = some Tok.lparen := by
      rw [partLookup_unshadowed env "(" hl1 hl2 hl3]
      decide
    simp [tokenToFrag, hpl]
  have hfRp : tokenToFrag env ")" = FragRes.tok Tok.rparen := by
    have hpl : partLookup env ")" = some Tok.rparen := by
      rw [partLookup_unshadowed env ")" hr1 hr2 hr3]
      decide
    simp [tokenToFrag, hpl]
  refine ⟨⟨PyExpr.andE (PyExpr.hasItem "A" 1) (PyExpr.hasItem "B" 1), ?_, ?_⟩,
    ⟨PyExpr.orE (PyExpr.hasItem "A" 1) (PyExpr.hasItem "B" 1), ?_, ?_⟩,
    ⟨PyExpr.orE (PyExpr.andE (PyExpr.hasItem "A" 1) (PyExpr.hasItem "B" 1))
      (PyExpr.hasItem "C" 1), ?_, ?_⟩⟩
  · have hparts : ruleParts "A + B" = ["A", "+", "B"] := by decide
    have hfr : ruleFrags env "A + B" =
        some [Tok.hasTok "A" 1, Tok.andT, Tok.hasTok "B" 1] := by
      simp [ruleFrags, hparts, ruleFragsGo, hfA, hfB, hfPlus]
    unfold convert_to_rule
    rw [hfr]
    decide
  · intro s
    simp [pyEval, Bool.and_eq_true, decide_eq_true_eq]
  · have hparts : ruleParts "A | B" = ["A", "|", "B"] := by decide
    have hfr : ruleFrags env "A | B" =
        some [Tok.hasTok "A" 1, Tok.orT, Tok.hasTok "B" 1] := by
      simp [ruleFrags, hparts, ruleFragsGo, hfA, hfB, hfBar]
    unfold convert_to_rule
    rw [hfr]
    decide
  · intro s
    simp [pyEval, Bool.or_eq_true, decide_eq_true_eq]
  · have hparts : ruleParts "(A + B) | C" = ["(", "A", "+", "B", ")", "|", "C"] := by decide
    have hfr : ruleFrags env "(A + B) | C" =
        some [Tok.lparen, Tok.hasTok "A" 1, Tok.andT, Tok.hasTok "B" 1, Tok.rparen,
          Tok.orT, Tok.hasTok "C" 1] := by
      simp [ruleFrags, hparts, ruleFragsGo, hfA, hfB, hfC, hfPlus, hfBar, hfLp, hfRp]
    unfold convert_to_rule
    rw [hfr]
    decide
  · intro s
    simp [pyEval, Bool.or_eq_true, Bool.and_eq_true, decide_eq_true_eq]

/-- Witness for C4 in the concrete catalog `env0`, on concrete inventories. -/
theorem claim_C4_witness :
    Option.map (fun p => pyEval p invAB) (convert_to_rule env0 "A + B") = some true ∧
    Option.map (fun p => pyEval p invA) (convert_to_rule env0 "A | B") = some true ∧
    Option.map (fun p => pyEval p invA) (convert_to_rule env0 "(A + B) | C") = some false := by
  obtain ⟨p1, hp1, hs1⟩ := (claim_C4 env0 (by decide) (by decide) (by decide) (by decide)).1
  obtain ⟨p2, hp2, hs2⟩ := (claim_C4 env0 (by decide) (by decide) (by decide) (by decide)).2.1
  obtain ⟨p3, hp3, hs3⟩ := (claim_C4 env0 (by decide) (by decide) (by decide) (by decide)).2.2
  refine ⟨?_, ?_, ?_⟩
  · rw [hp1, Option.map_some']
    exact congrArg some ((hs1 invAB).mpr ⟨by decide, by decide⟩)
  · rw [hp2, Option.map_some']
    exact congrArg some ((hs2 invA).mpr (Or.inl (by decide)))
  · rw [hp3, Option.map_some']
    have hne : pyEval p3 invA ≠ true := by
      intro h
      have h2 := (hs3 invA).mp h
      revert h2
      decide
    rw [Bool.eq_false_iff.mpr hne]

/-- An `item_token` name becomes a has-one fragment. -/
theorem tokenToFrag_item (env : CompileEnv) (n : String) (h : item_token env n) :
    tokenToFrag env n = FragRes.tok (Tok.hasTok n 1) := by
  simp [tokenToFrag, partLookup_item_token env n h]

/-- An unshadowed `+` token becomes the AND fragment. -/
theorem tokenToFrag_plus (env : CompileEnv) (hops : ops_free env) :
    tokenToFrag env "+" = FragRes.tok Tok.andT := by
  obtain ⟨h1, h2, h3⟩ := hops "+" (by simp)
  have hpl : partLookup env "+" = some Tok.andT := by
    rw [partLookup_unshadowed env "+" h1 h2 h3]
    decide
  simp [tokenToFrag, hpl]

/-- An unshadowed `|` token becomes the OR fragment. -/
theorem tokenToFrag_bar (env : CompileEnv) (hops : ops_free env) :
    tokenToFrag env "|" = FragRes.tok Tok.orT := by
  obtain ⟨h1, h2, h3⟩ := hops "|" (by simp)
  have hpl : partLookup env "|" = some Tok.orT := by
    rw [partLookup_unshadowed env "|" h1 h2 h3]
    decide
  simp [tokenToFrag, hpl]

/-- C5 counterexample: mixed `+` and `|` are not evaluated left-to-right.  The
literal unspaced rule text of the claim does not even compile, and the spaced
form `A | B + C` compiles to a predicate that is true on an inventory holding
only A — where the claimed left-to-right reading ((A or B) and C) is false,
because the generated Python expression gives `and` higher precedence. -/
theorem claim_C5_cex :
    convert_to_rule env0 "A|B+C" = none ∧
    Option.map (fun p => pyEval p invA) (convert_to_rule env0 "A | B + C") = some true ∧
    ¬ ((1 ≤ invA "A" ∨ 1 ≤ invA "B") ∧ 1 ≤ invA "C") :=
  ⟨by decide, by decide, by decide⟩

/-- C5 (amended): with whitespace-separated operators, a rule mixing `+` and
`|` without parentheses follows the host language's precedence — AND binds
tighter than OR — so `A | B + C` is true iff A or (B and C). -/
theorem claim_C5 (env : CompileEnv) (hops : ops_free env)
    (hA : item_token env "A") (hB : item_token env "B") (hC : item_token env "C") :
    ∃ p, convert_to_rule env "A | B + C" = some p ∧
      ∀ s : InvState, pyEval p s = true ↔ (1 ≤ s "A" ∨ (1 ≤ s "B" ∧ 1 ≤ s "C")) := by
  have hparts : ruleParts "A | B + C" = ["A", "|", "B", "+", "C"] := by decide
  have hfr : ruleFrags env "A | B + C" =
      some [Tok.hasTok "A" 1, Tok.orT, Tok.hasTok "B" 1, Tok.andT, Tok.hasTok "C" 1] := by
    simp [ruleFrags, hparts, ruleFragsGo, tokenToFrag_item env "A" hA,
      tokenToFrag_item env "B" hB, tokenToFrag_item env "C" hC,
      tokenToFrag_plus env hops, tokenToFrag_bar env hops]
  refine ⟨PyExpr.orE (PyExpr.hasItem "A" 1)
    (PyExpr.andE (PyExpr.hasItem "B" 1) (PyExpr.hasItem "C" 1)), ?_, ?_⟩
  · unfold convert_to_rule
    rw [hfr]
    decide
  · intro s
    simp [pyEval, Bool.or_eq_true, Bool.and_eq_true, decide_eq_true_eq]

/-- Witness for C5 on the concrete catalog and the inventory holding only A. -/
theorem claim_C5_witness :
    Option.map (fun p => pyEval p invA) (convert_to_rule env0 "A | B + C") = some true := by
  obtain ⟨p, hp, hs⟩ := claim_C5 env0 (by decide) (by decide) (by decide) (by decide)
  rw [hp, Option.map_some']
  exact congrArg some ((hs invA).mpr (Or.inl (by decide)))

/-- C6, evaluated at the failing input: on rule text `A + Bad + B` the token
loop does report and skip the unrecognized token and keeps processing the
remaining tokens (the fragment list shows both neighbours compiled), but the
assembled lambda string `lambda state: state.has("A", p) and  and
state.has("B", p)` fails to evaluate — `eval` raises SyntaxError and the run
crashes, so compilation is not non-fatal as claimed. -/
theorem claim_C6 :
    ruleFrags env0 "A + Bad + B" =
      some [Tok.hasTok "A" 1, Tok.andT, Tok.andT, Tok.hasTok "B" 1] ∧
    convert_to_rule env0 "A + Bad + B" = none :=
  ⟨by decide, by decide⟩

/-- C8: a counted token `Key{3}` compiles to a has-count-at-least-3 check on
`Key` (false when the count is 2); the reserved alias `Grappling_Hook_Upgrade`
expands — without consulting the item catalog — to a has-count-at-least-2
check on `Grappling_Hook`, `Infinite_Grapple` to a has-count-at-least-3 check,
and each alias compiles to exactly what the literal counted rule with that
count compiles to. -/
theorem claim_C8 (env : CompileEnv)
    (hKey : item_token env "Key") (hK3 : plain_unknown env "Key\x7b3\x7d")
    (hUpE : "Grappling_Hook_Upgrade" ∉ env.events)
    (hUpO : List.lookup "Grappling_Hook_Upgrade" env.options = none)
    (hInfE : "Infinite_Grapple" ∉ env.events)
    (hInfO : List.lookup "Infinite_Grapple" env.options = none)
    (hGH : "Grappling_Hook" ∈ env.items)
    (hGH2 : plain_unknown env "Grappling_Hook\x7b2\x7d")
    (hGH3 : plain_unknown env "Grappling_Hook\x7b3\x7d") :
    (∃ p, convert_to_rule env "Key\x7b3\x7d" = some p ∧
      (∀ s : InvState, pyEval p s = true ↔ 3 ≤ s "Key") ∧
      (∀ s : InvState, s "Key" = 2 → pyEval p s = false)) ∧
    convert_to_rule env "Grappling_Hook_Upgrade" = some (PyExpr.hasItem "Grappling_Hook" 2) ∧
    convert_to_rule env "Infinite_Grapple" = some (PyExpr.hasItem "Grappling_Hook" 3) ∧
    convert_to_rule env "Grappling_Hook_Upgrade" =
      convert_to_rule env "Grappling_Hook\x7b2\x7d" ∧
    convert_to_rule env "Infinite_Grapple" = convert_to_rule env "Grappling_Hook\x7b3\x7d" := by
  have hftK : tokenToFrag env "Key\x7b3\x7d" = FragRes.tok (Tok.hasTok "Key" 3) := by
    have hpl : partLookup env "Key\x7b3\x7d" = none := by
      rw [partLookup_unshadowed env "Key\x7b3\x7d" hK3.1 hK3.2.1 hK3.2.2]
      decide
    have hsp : splitOnChar lbraceChar ("Key\x7b3\x7d").data =
        [['K', 'e', 'y'], ['3', rbraceChar]] := by decide
    have hmk : String.mk ['K', 'e', 'y'] = "Key" := rfl
    have hcnt : parseIntChars ((splitOnChar rbraceChar ['3', rbraceChar]).headD []) =
        some 3 := by decide
    unfold tokenToFrag
    rw [hpl, hsp]
    simp only [hmk, hKey.1, if_true, hcnt]
    all_goals decide
  have hcompK : convert_to_rule env "Key\x7b3\x7d" = some (PyExpr.hasItem "Key" 3) := by
    have hparts : ruleParts "Key\x7b3\x7d" = ["Key\x7b3\x7d"] := by decide
    have hfr : ruleFrags env "Key\x7b3\x7d" = some [Tok.hasTok "Key" 3] := by
      simp [ruleFrags, hparts, ruleFragsGo, hftK]
    unfold convert_to_rule
    rw [hfr]
    decide
  have hcompUp : convert_to_rule env "Grappling_Hook_Upgrade" =
      some (PyExpr.hasItem "Grappling_Hook" 2) := by
    have hpl : partLookup env "Grappling_Hook_Upgrade" =
        some (Tok.hasTok "Grappling_Hook" 2) := by
      unfold partLookup
      rw [if_neg hUpE, hUpO]
      simp
    have hparts : ruleParts "Grappling_Hook_Upgrade" = ["Grappling_Hook_Upgrade"] := by decide
    have hfr : ruleFrags env "Grappling_Hook_Upgrade" =
        some [Tok.hasTok "Grappling_Hook" 2] := by
      simp [ruleFrags, hparts, ruleFragsGo, tokenToFrag, hpl]
    unfold convert_to_rule
    rw [hfr]
    decide
  have hcompInf : convert_to_rule env "Infinite_Grapple" =
      some (PyExpr.hasItem "Grappling_Hook" 3) := by
    have hpl : partLookup env "Infinite_Grapple" =
        some (Tok.hasTok "Grappling_Hook" 3) := by
      unfold partLookup
      rw [if_neg hInfE, hInfO]
      simp
    have hparts : ruleParts "Infinite_Grapple" = ["Infinite_Grapple"] := by decide
    have hfr : ruleFrags env "Infinite_Grapple" =
        some [Tok.hasTok "Grappling_Hook" 3] := by
      simp [ruleFrags, hparts, ruleFragsGo, tokenToFrag, hpl]
    unfold convert_to_rule
    rw [hfr]
    decide
  have hmkGH : String.mk ['G', 'r', 'a', 'p', 'p', 'l', 'i', 'n', 'g', '_', 'H', 'o', 'o', 'k'] =
      "Grappling_Hook" := rfl
  have hcompGH2 : convert_to_rule env "Grappling_Hook\x7b2\x7d" =
      some (PyExpr.hasItem "Grappling_Hook" 2) := by
    have hpl : partLookup env "Grappling_Hook\x7b2\x7d" = none := by
      rw [partLookup_unshadowed env "Grappling_Hook\x7b2\x7d" hGH2.1 hGH2.2.1 hGH2.2.2]
      decide
    have hsp : splitOnChar lbraceChar ("Grappling_Hook\x7b2\x7d").data =
        [['G', 'r', 'a', 'p', 'p', 'l', 'i', 'n', 'g', '_', 'H', 'o', 'o', 'k'],
         ['2', rbraceChar]] := by decide
    have hcnt : parseIntChars ((splitOnChar rbraceChar ['2', rbraceChar]).headD []) =
        some 2 := by decide
    have hft : tokenToFrag env "Grappling_Hook\x7b2\x7d" =
        FragRes.tok (Tok.hasTok "Grappling_Hook" 2) := by
      unfold tokenToFrag
      rw [hpl, hsp]
      simp only [hmkGH, hGH, if_true, hcnt]
      all_goals decide
    have hparts : ruleParts "Grappling_Hook\x7b2\x7d" = ["Grappling_Hook\x7b2\x7d"] := by decide
    have hfr : ruleFrags env "Grappling_Hook\x7b2\x7d" =
        some [Tok.hasTok "Grappling_Hook" 2] := by
      simp [ruleFrags, hparts, ruleFragsGo, hft]
    unfold convert_to_rule
    rw [hfr]
    decide
  have hcompGH3 : convert_to_rule env "Grappling_Hook\x7b3\x7d" =
      some (PyExpr.hasItem "Grappling_Hook" 3) := by
    have hpl : partLookup env "Grappling_Hook\x7b3\x7d" = none := by
      rw [partLookup_unshadowed env "Grappling_Hook\x7b3\x7d" hGH3.1 hGH3.2.1 hGH3.2.2]
      decide
    have hsp : splitOnChar lbraceChar ("Grappling_Hook\x7b3\x7d").data =
        [['G', 'r', 'a', 'p', 'p', 'l', 'i', 'n', 'g', '_', 'H', 'o', 'o', 'k'],
         ['3', rbraceChar]] := by decide
    have hcnt : parseIntChars ((splitOnChar rbraceChar ['3', rbraceChar]).headD []) =
        some 3 := by decide
    have hft : tokenToFrag env "Grappling_Hook\x7b3\x7d" =
        FragRes.tok (Tok.hasTok "Grappling_Hook" 3) := by
      unfold tokenToFrag
      rw [hpl, hsp]
      simp only [hmkGH, hGH, if_true, hcnt]
      all_goals decide
    have hparts : ruleParts "Grappling_Hook\x7b3\x7d" = ["Grappling_Hook\x7b3\x7d"] := by decide
    have hfr : ruleFrags env "Grappling_Hook\x7b3\x7d" =
        some [Tok.hasTok "Grappling_Hook" 3] := by
      simp [ruleFrags, hparts, ruleFragsGo, hft]
    unfold convert_to_rule
    rw [hfr]
    decide
  refine ⟨⟨PyExpr.hasItem "Key" 3, hcompK, ?_, ?_⟩, hcompUp, hcompInf, ?_, ?_⟩
  · intro s
    simp [pyEval, decide_eq_true_eq]
  · intro s h2
    simp [pyEval, h2]
  · rw [hcompUp, hcompGH2]
  · rw [hcompInf, hcompGH3]

/-- Witness for C8 in the concrete catalog, at inventories with three and with
two Keys. -/
theorem claim_C8_witness :
    Option.map (fun p => pyEval p invKey3) (convert_to_rule env0 "Key\x7b3\x7d") = some true ∧
    Option.map (fun p => pyEval p invKey2) (convert_to_rule env0 "Key\x7b3\x7d") = some false ∧
    convert_to_rule env0 "Grappling_Hook_Upgrade" =
      convert_to_rule env0 "Grappling_Hook\x7b2\x7d" ∧
    convert_to_rule env0 "Infinite_Grapple" = convert_to_rule env0 "Grappling_Hook\x7b3\x7d" := by
  obtain ⟨⟨p, hp, hiff, hf2⟩, hup, hinf, he1, he2⟩ := claim_C8 env0 (by decide) (by decide)
    (by decide) (by decide) (by decide) (by decide) (by decide) (by decide) (by decide)
  refine ⟨?_, ?_, he1, he2⟩
  · rw [hp, Option.map_some']
    exact congrArg some ((hiff invKey3).mpr (by decide))
  · rw [hp, Option.map_some']
    exact congrArg some (hf2 invKey2 (by decide))

/-- C9: the five enumerated ending values map to five distinct fixed goal
event names, every other value falls back to the default ending's event name
(`e_goal_e`, which is also the initial value of `goal_event`), and the
installed completion predicate is true on a state exactly when the state has
the selected goal event's locked marker item. -/
theorem claim_C9 :
    ([set_rules_goal option_ending_a, set_rules_goal option_ending_b,
      set_rules_goal option_ending_c, set_rules_goal option_ending_d,
      set_rules_goal option_ending_e] =
        ["e_goal_a", "e_goal_b", "e_goal_c", "e_goal_d", "e_goal_e"]) ∧
    ([set_rules_goal option_ending_a, set_rules_goal option_ending_b,
      set_rules_goal option_ending_c, set_rules_goal option_ending_d,
      set_rules_goal option_ending_e]).Nodup ∧
    (∀ v : Nat, v ≠ option_ending_a → v ≠ option_ending_b → v ≠ option_ending_c →
      v ≠ option_ending_d → v ≠ option_ending_e →
      set_rules_goal v = set_rules_goal option_ending_e) ∧
    (∀ (v : Nat) (s : InvState),
      completion_condition v s = true ↔
        1 ≤ s (create_event (set_rules_goal v)).lockedItem) := by
  refine ⟨by decide, by decide, ?_, ?_⟩
  · intro v h1 h2 h3 h4 h5
    simp only [option_ending_a, option_ending_b, option_ending_c, option_ending_d,
      option_ending_e] at h1 h2 h3 h4 h5 ⊢
    simp [set_rules_goal, option_ending_a, option_ending_b, option_ending_c,
      option_ending_d, option_ending_e, h1, h2, h3, h4, h5]
  · intro v s
    simp [completion_condition, create_event, decide_eq_true_eq]

/-- Witness for C9: the out-of-range value 99 falls back to the default goal
event, and the completion predicate at 99 checks that event's marker item. -/
theorem claim_C9_witness :
    set_rules_goal 99 = set_rules_goal option_ending_e ∧
    (completion_condition 99 invGoal = true ↔
      1 ≤ invGoal (create_event (set_rules_goal 99)).lockedItem) :=
  ⟨claim_C9.2.2.1 99 (by decide) (by decide) (by decide) (by decide) (by decide),
   claim_C9.2.2.2 99 invGoal⟩

end RustedMoss
